import Mathlib

/-!
Verification development for the whisky-review archive cleaner
(`src/data_preprocessing/preprocess.py`) and the review text normalizer
(`src/data_preprocessing/review_processing.py`).

Python strings are modelled as lists of Unicode code points (`List Nat`);
a pandas cell is either a string, a float, or a missing value (NaN).
Only the ASCII case mapping of `str.lower` and the ASCII whitespace set of
`str.strip` are modelled; the archive data and every spec example are ASCII.
-/

/-- A Python string, as its list of Unicode code points. -/
abbrev Str : Type := List Nat

/-- Code points of a Lean string literal, for readable concrete inputs. -/
def strLit (s : String) : Str := s.toList.map Char.toNat

/-- ASCII whitespace, the characters removed by `str.strip()` (the non-ASCII
whitespace code points never occur in this data set and are not modelled). -/
def isSpaceB (c : Nat) : Bool := c = 32 || c = 9 || c = 10 || c = 13 || c = 11 || c = 12

/-- ASCII case mapping of `str.lower()`. -/
def lowerChar (c : Nat) : Nat := if 65 ≤ c ∧ c ≤ 90 then c + 32 else c

/-- `str.lower()`. -/
def pyLower (s : Str) : Str := s.map lowerChar

/-- Drop leading whitespace, `str.lstrip()`. -/
def dropLead (s : Str) : Str := s.dropWhile isSpaceB

/-- Drop trailing whitespace. -/
def dropTrail (s : Str) : Str := ((s.reverse).dropWhile isSpaceB).reverse

/-- `str.strip()`. -/
def pyStrip (s : Str) : Str := dropTrail (dropLead s)

/-- Python float values: IEEE specials are kept symbolic, finite values are
exact rationals (every rating in the claims is exactly representable). -/
inductive PyFloat : Type where
  | finite (q : ℚ)
  | inf
  | neginf
  | nan
deriving DecidableEq

/-- A pandas cell of an object-dtype column: a string, a float, or NaN. -/
inductive Cell : Type where
  | missing
  | str (s : Str)
  | num (v : PyFloat)
deriving DecidableEq

/-- The string payload of a cell, if any. -/
def cellStr? (c : Cell) : Option Str :=
  match c with
  | Cell.str s => some s
  | _ => none

/-- The `.str.strip()` accessor on one cell: non-strings (floats, NaN)
become NaN under the pandas `.str` accessor. -/
def cellStrip (c : Cell) : Cell :=
  match c with
  | Cell.str s => Cell.str (pyStrip s)
  | _ => Cell.missing

/-- One cell of `_strip_and_lower_series`: `.str.strip()`, then
`.str.lower()`, then `.replace('', np.nan)`. -/
def strip_and_lower_cell (c : Cell) : Cell :=
  match c with
  | Cell.str s =>
      let t := pyLower (pyStrip s)
      if t = [] then Cell.missing else Cell.str t
  | _ => Cell.missing

/-- `_strip_and_lower_series` over a whole column. -/
def strip_and_lower_series (col : List Cell) : List Cell :=
  col.map strip_and_lower_cell

/-- A fixed-width regular-expression pattern: `some c` matches the literal
code point `c`, `none` is the metacharacter dot, matching any code point
except a newline.  The three patterns the source uses (`'/100'`, `'www.'`,
`'reddit.com'`) are all of this quantifier-free form. -/
abbrev Pat : Type := List (Option Nat)

/-- One pattern element against one code point. -/
def patElemMatches (p : Option Nat) (c : Nat) : Bool :=
  match p with
  | some a => a = c
  | none => !(c = 10)

/-- Does the pattern match a prefix of `s` (consuming `p.length` points)? -/
def patMatchesAt (p : Pat) (s : Str) : Bool :=
  match p, s with
  | [], _ => true
  | _ :: _, [] => false
  | a :: p, c :: s => patElemMatches a c && patMatchesAt p s

/-- Does the pattern match anywhere in `s` (`re.search`)? -/
def patContains (p : Pat) (s : Str) : Bool :=
  s.tails.any (fun t => patMatchesAt p t)

/-- `re.sub`, leftmost non-overlapping replacement of every match, with the
input's length as fuel (enough, since our patterns are nonempty and each
match consumes at least one code point). -/
def replaceAllAux (p : Pat) (rep : Str) : Nat → Str → Str
  | 0, s => s
  | _ + 1, [] => []
  | fuel + 1, c :: s =>
      if patMatchesAt p (c :: s) && !p.isEmpty then
        rep ++ replaceAllAux p rep fuel ((c :: s).drop p.length)
      else
        c :: replaceAllAux p rep fuel s

/-- `Series.str.replace(pat, rep)` on one string, with pandas' historical
default `regex=True` (the pandas version contemporary with this source). -/
def replaceAll (p : Pat) (rep : Str) (s : Str) : Str :=
  replaceAllAux p rep s.length s

/-- The `.str.replace(pat, rep)` accessor on one cell (non-strings → NaN). -/
def cellReplace (p : Pat) (rep : Str) (c : Cell) : Cell :=
  match c with
  | Cell.str s => Cell.str (replaceAll p rep s)
  | _ => Cell.missing

/-- The pattern `'/100'` (no regex metacharacters). -/
def pat100 : Pat := (strLit "/100").map some

/-- The pattern `'www.'`: three literal `w`s and a regex dot. -/
def wwwPat : Pat := (strLit "www").map some ++ [none]

/-- The pattern `'reddit.com'`: a regex dot between `reddit` and `com`. -/
def redditPat : Pat := (strLit "reddit").map some ++ [none] ++ (strLit "com").map some

/-- ASCII decimal digit. -/
def isDigitB (c : Nat) : Bool := 48 ≤ c && c ≤ 57

/-- Value of a digit run, most significant first. -/
def digitsToNat (l : Str) : Nat := l.foldl (fun a d => a * 10 + (d - 48)) 0

/-- Mantissa of a Python float literal: `d+ | d+ . d* | d* . d+`
(digit-grouping underscores, absent from this data, are not modelled). -/
def parseMantissa (l : Str) : Option ℚ :=
  let ip := l.takeWhile isDigitB
  let r1 := l.dropWhile isDigitB
  match r1 with
  | [] => if ip = [] then none else some ((digitsToNat ip : ℚ))
  | 46 :: r2 =>
      let fp := r2.takeWhile isDigitB
      let r3 := r2.dropWhile isDigitB
      if r3 = [] then
        if ip = [] && fp = [] then none
        else some ((digitsToNat ip : ℚ) + (digitsToNat fp : ℚ) / (10 : ℚ) ^ fp.length)
      else none
  | _ => none

/-- Exponent part after `e`/`E`: optional sign and a digit run. -/
def parseExponent (l : Str) : Option ℤ :=
  let (sgn, l2) :=
    match l with
    | 43 :: r => ((1 : ℤ), r)
    | 45 :: r => ((-1 : ℤ), r)
    | r => ((1 : ℤ), r)
  if l2 = [] || !(l2.all isDigitB) then none else some (sgn * (digitsToNat l2 : ℤ))

/-- Python's `float(str)`: surrounding whitespace, an optional sign, then
`inf`/`infinity`/`nan` (case-insensitive) or a decimal mantissa with an
optional `e`/`E` exponent.  `none` is a raised `ValueError`. -/
def pyFloat? (s : Str) : Option PyFloat :=
  let s1 := pyStrip s
  let (neg, s2) :=
    match s1 with
    | 43 :: r => (false, r)
    | 45 :: r => (true, r)
    | r => (false, r)
  let low := pyLower s2
  if low = strLit "inf" || low = strLit "infinity" then
    some (if neg then PyFloat.neginf else PyFloat.inf)
  else if low = strLit "nan" then some PyFloat.nan
  else
    match (s2.findIdx? (fun c => c = 101 || c = 69)) with
    | none =>
        (parseMantissa s2).map (fun q => PyFloat.finite (if neg then -q else q))
    | some i =>
        match parseMantissa (s2.take i), parseExponent (s2.drop (i + 1)) with
        | some m, some e =>
            let q := m * (10 : ℚ) ^ e
            some (PyFloat.finite (if neg then -q else q))
        | _, _ => none

/-- `Series.astype(float, errors='ignore')`: pandas converts the column as a
whole; on any `ValueError` it suppresses the exception and returns the
original column unchanged.  NaN converts to float NaN, floats stay floats. -/
def astypeFloatIgnore (col : List Cell) : List Cell :=
  if col.all (fun c => match c with
      | Cell.str s => (pyFloat? s).isSome
      | _ => true) then
    col.map (fun c => match c with
      | Cell.str s =>
          match pyFloat? s with
          | some v => Cell.num v
          | none => c
      | other => other)
  else col

/-- Characters allowed after the first letter of a URL scheme
(`urllib.parse.scheme_chars`): letters, digits, `+`, `-`, `.`. -/
def isSchemeChar (c : Nat) : Bool :=
  (65 ≤ c && c ≤ 90) || (97 ≤ c && c ≤ 122) || isDigitB c || c = 43 || c = 45 || c = 46

/-- ASCII letter. -/
def isAlphaB (c : Nat) : Bool := (65 ≤ c && c ≤ 90) || (97 ≤ c && c ≤ 122)

/-- The components of `urllib.parse.urlparse` the source reads. -/
structure UrlParts : Type where
  scheme : Str
  netloc : Str
  path : Str
deriving DecidableEq

/-- Split off `s[:i]` at the first occurrence of `c`, keeping the rest. -/
def splitAtFirst (c : Nat) (s : Str) : Str × Str :=
  (s.takeWhile (fun x => !(x = c)), s.dropWhile (fun x => !(x = c)))

/-- `urllib.parse.urlparse`, restricted to the `scheme`/`netloc`/`path`
components the source uses: a scheme is a nonempty run of scheme characters
starting with a letter and followed by `:`; a netloc follows `//` and runs
to the next `/`, `?` or `#`; query and fragment are split off the path at
the first `?` and `#` (the `;params` split of `urlparse`, which never fires
on this data, is folded into the path). -/
def pyUrlparse (url : Str) : UrlParts :=
  let candScheme := url.takeWhile (fun c => !(c = 58))
  let hasScheme :=
    candScheme.length < url.length &&
    !candScheme.isEmpty &&
    (match candScheme with
     | c :: rest => isAlphaB c && rest.all isSchemeChar
     | [] => false)
  let scheme := if hasScheme then pyLower candScheme else []
  let rest := if hasScheme then url.drop (candScheme.length + 1) else url
  let (netloc, rest2) :=
    match rest with
    | 47 :: 47 :: r =>
        (r.takeWhile (fun c => !(c = 47 || c = 63 || c = 35)),
         r.dropWhile (fun c => !(c = 47 || c = 63 || c = 35)))
    | r => ([], r)
  let (beforeFrag, _) := splitAtFirst 35 rest2
  let (path, _) := splitAtFirst 63 beforeFrag
  { scheme := scheme, netloc := netloc, path := path }

/-- Empty strings in the parsed component columns become NaN
(`dataframe[col].replace('', np.nan)`). -/
def emptyToMissing (s : Str) : Cell :=
  if s = [] then Cell.missing else Cell.str s

/-- One row of the whisky archive table.  The five input columns are read
with `dtype=str`; `scheme`, `netloc`, `path` are added by `_url_parse_`
(the raw `urlparse` object column, which duplicates them, is not tracked);
`review_text` is added by `_scrape_reddit_reviews_`. -/
structure Row : Type where
  timestamp : Cell
  style : Cell
  reviewer : Cell
  rating : Cell
  url : Cell
  scheme : Cell
  netloc : Cell
  path : Cell
  review_text : Cell
deriving DecidableEq

/-- String cells of a column, in order — the values `value_counts` counts
(NaN is dropped by `value_counts`' default `dropna=True`). -/
def strCells (col : List Cell) : List Str := col.filterMap cellStr?

/-- Occurrences of `s` in a list of strings. -/
def countStr (s : Str) (l : List Str) : Nat := l.countP (fun t => decide (t = s))

/-- `_keep_frequent_`: `value_counts`, keep counts `>= count`, return the
index.  The distinct values kept are returned here in first-occurrence
order; `value_counts`' descending-count order is dropped because the only
consumer (`Series.isin`) is order-insensitive. -/
def keep_frequent (series : List Cell) (count : Nat) : List Str :=
  ((strCells series).dedup).filter (fun s => count ≤ countStr s (strCells series))

/-- `Series.isin(keep)` on one style cell (NaN is never in the index). -/
def styleKeptB (keep : List Str) (c : Cell) : Bool :=
  match c with
  | Cell.str s => decide (s ∈ keep)
  | _ => false

/-- The `replace_dict` of alternate style spellings (preprocess.py:215). -/
def replace_dict : List (Str × Str) :=
  [ (strLit "bourbon/america", strLit "bourbon"),
    (strLit "blended speyside scotch", strLit "speyside"),
    (strLit "lowland / grain", strLit "lowland"),
    (strLit "borubon", strLit "bourbon"),
    (strLit "highlands", strLit "highland") ]

/-- `Series.replace(dict)` on one cell: whole values equal to a key are
replaced by its value; everything else (including NaN) passes through. -/
def replaceCell (dict : List (Str × Str)) (c : Cell) : Cell :=
  match c with
  | Cell.str s =>
      match dict.find? (fun kv => decide (kv.1 = s)) with
      | some kv => Cell.str kv.2
      | none => Cell.str s
  | other => other

/-- The `pd.to_datetime(..., errors='coerce')` call on the timestamp column
is external library behaviour irrelevant to every claim; the pipeline is
parametric in it (`toDT`). -/
def tsStage (toDT : Cell → Cell) (t : List Row) : List Row :=
  t.map (fun r => { r with timestamp := toDT r.timestamp })

/-- Normalize the style column (preprocess.py:211). -/
def styleNormStage (t : List Row) : List Row :=
  t.map (fun r => { r with style := strip_and_lower_cell r.style })

/-- Canonicalize alternate style spellings (preprocess.py:221). -/
def styleReplaceStage (t : List Row) : List Row :=
  t.map (fun r => { r with style := replaceCell replace_dict r.style })

/-- Keep only styles with at least 100 reviews (preprocess.py:225-230). -/
def freqStage (t : List Row) : List Row :=
  let keep := keep_frequent (t.map (fun r => r.style)) 100
  t.filter (fun r => styleKeptB keep r.style)

/-- Strip spaces from reviewer names (preprocess.py:233). -/
def reviewerStage (t : List Row) : List Row :=
  t.map (fun r => { r with reviewer := cellStrip r.reviewer })

/-- Normalize the rating column (preprocess.py:238). -/
def ratingNormStage (t : List Row) : List Row :=
  t.map (fun r => { r with rating := strip_and_lower_cell r.rating })

/-- Remove the `/100` divisor from ratings (preprocess.py:240). -/
def ratingStripStage (t : List Row) : List Row :=
  t.map (fun r => { r with rating := cellReplace pat100 [] r.rating })

/-- `astype(float, errors='ignore')` on the rating column
(preprocess.py:242): the conversion is all-or-nothing per column. -/
def ratingAstypeStage (t : List Row) : List Row :=
  if (t.map (fun r => r.rating)).all (fun c => match c with
      | Cell.str s => (pyFloat? s).isSome
      | _ => true) then
    t.map (fun r => { r with rating :=
      match r.rating with
      | Cell.str s =>
          match pyFloat? s with
          | some v => Cell.num v
          | none => Cell.str s
      | other => other })
  else t

/-- `_url_parse_`: normalize the URL column, apply `urlparse`, store the
scheme, netloc and path components, and blank components become NaN.
On a NaN URL the original would raise inside `apply` (urlparse of a float);
that never happens on this data and is modelled as missing components. -/
def url_parse (t : List Row) : List Row :=
  t.map (fun r =>
    match strip_and_lower_cell r.url with
    | Cell.str s =>
        let p := pyUrlparse s
        { r with url := Cell.str s,
                 scheme := emptyToMissing p.scheme,
                 netloc := emptyToMissing p.netloc,
                 path := emptyToMissing p.path }
    | _ =>
        { r with url := Cell.missing,
                 scheme := Cell.missing,
                 netloc := Cell.missing,
                 path := Cell.missing })

/-- Row predicate for the invalid partition of `_url_fix_`
(`post_url_parse_df['scheme'].isnull()`). -/
def schemeMissingB (r : Row) : Bool := decide (r.scheme = Cell.missing)

/-- `invalid[url].str.replace('www.', '')` on one row. -/
def urlReplaceWww (r : Row) : Row := { r with url := cellReplace wwwPat [] r.url }

/-- `'https://www.' + invalid[url]` on one row (`+` with NaN stays NaN). -/
def urlPrependHttps (r : Row) : Row :=
  { r with url :=
      match r.url with
      | Cell.str s => Cell.str (strLit "https://www." ++ s)
      | other => other }

/-- `_url_fix_`: partition on a missing scheme, rewrite the invalid rows'
URLs, and concatenate the fixed rows before the valid ones
(`pd.concat([invalid_rating_urls, valid_rating_urls])`). -/
def url_fix (t : List Row) : List Row :=
  ((t.filter (fun r => schemeMissingB r)).map urlReplaceWww).map urlPrependHttps
    ++ t.filter (fun r => !schemeMissingB r)

/-- Does the final URL match the filter `str.contains('reddit.com')`
(a regex search, not a host comparison)?  A NaN URL would make the boolean
mask raise in pandas; modelled as dropped. -/
def urlMatchesRedditB (r : Row) : Bool :=
  match r.url with
  | Cell.str s => patContains redditPat s
  | _ => false

/-- The final host filter (preprocess.py:252). -/
def urlFilterStage (t : List Row) : List Row :=
  t.filter (fun r => urlMatchesRedditB r)

/-- The table after style normalization and canonicalization — the table
whose per-style counts `_keep_frequent_` measures. -/
def canonTable (toDT : Cell → Cell) (rows : List Row) : List Row :=
  styleReplaceStage (styleNormStage (tsStage toDT rows))

/-- The table `whisky_archive_processor.process` builds just before the
final `reddit.com` filter. -/
def beforeUrlFilter (toDT : Cell → Cell) (rows : List Row) : List Row :=
  url_fix (url_parse (ratingAstypeStage (ratingStripStage (ratingNormStage
    (reviewerStage (freqStage (canonTable toDT rows)))))))

/-- `whisky_archive_processor.process` on the loaded table (the Excel read
itself is I/O glue; `toDT` stands for `pd.to_datetime(..., errors='coerce')`). -/
def process (toDT : Cell → Cell) (rows : List Row) : List Row :=
  urlFilterStage (beforeUrlFilter toDT rows)

/-- Occurrences of style `s` among a table's style cells. -/
def styleCount (s : Str) (t : List Row) : Nat :=
  countStr s (strCells (t.map (fun r => r.style)))

/-- Python's `max` over a list of naturals (the comment lengths are
naturals, and the call site guarantees a nonempty list). -/
def pyMax (l : List Nat) : Nat := l.foldl max 0

/-- The comment-selection rule of `_scrape_reddit_reviews_`
(preprocess.py:166-174): no candidates → NaN; one candidate → that one;
otherwise the first candidate of maximal character count
(`comment_lengths.index(max(comment_lengths))`). -/
def select_review_comment (cands : List Str) : Cell :=
  match cands with
  | [] => Cell.missing
  | [c] => Cell.str c
  | _ =>
      let lens := cands.map List.length
      Cell.str (cands.getD (lens.indexOf (pyMax lens)) [])

/-- A node of a thread's top-level comment forest: either a praw
`MoreComments` placeholder or a comment with an author and a body. -/
structure CommentNode : Type where
  isMore : Bool
  author : Cell
  body : Str
deriving DecidableEq

/-- The `top_level_comment.author == usr` test.  A missing username (NaN)
or a deleted author never compares equal, as in Python. -/
def authorMatchesB (author usr : Cell) : Bool :=
  match author, usr with
  | Cell.str a, Cell.str u => decide (a = u)
  | _, _ => false

/-- The comment-collection loop body: skip `MoreComments` placeholders,
keep bodies of top-level comments whose author is the reviewer. -/
def collectAuthored (usr : Cell) (nodes : List CommentNode) : List Str :=
  nodes.filterMap (fun nd =>
    if nd.isMore then none
    else if authorMatchesB nd.author usr then some nd.body else none)

/-- The nodes the `try` block actually traverses: all of them on success,
only the first `k` when an exception is raised after `k` nodes
(`errAt = some k`; `some 0` is a failure of the fetch itself). -/
def nodesTraversed (nodes : List CommentNode) (errAt : Option Nat) : List CommentNode :=
  match errAt with
  | none => nodes
  | some k => nodes.take k

/-- One iteration of the scraping loop: the bare `except: pass` swallows
the error and the selection rule runs on whatever was collected first. -/
def scrapeRecord (usr : Cell) (nodes : List CommentNode) (errAt : Option Nat) : Cell :=
  select_review_comment (collectAuthored usr (nodesTraversed nodes errAt))

/-- The credentials in `pass_info.json`. -/
structure Creds : Type where
  client_id : Str
  client_secret : Str
  password : Str
  username : Str
deriving DecidableEq

/-- The external world of `_scrape_reddit_reviews_`: the file system that
`open(...)`/`json.load` reads credentials from, and the reddit API, which
given credentials and a submission URL yields the top-level comment forest
and the point, if any, at which fetching or traversing it raises. -/
structure RedditEnv : Type where
  readFile : Str → Creds
  fetch : Creds → Cell → List CommentNode × Option Nat

/-- `_scrape_reddit_reviews_(dataframe, pass_loc)`: credentials are loaded
from the literal path `'pass_info.json'` (preprocess.py:120) — the
`pass_loc` parameter is never read — and each row gains a `review_text`. -/
def scrape_reddit_reviews (env : RedditEnv) (dataframe : List Row) (pass_loc : Str) : List Row :=
  let pass_info := env.readFile (strLit "pass_info.json")
  dataframe.map (fun row =>
    let fetched := env.fetch pass_info row.url
    { row with review_text := scrapeRecord row.reviewer fetched.1 fetched.2 })

/-- `whisky_archive_processor.scrape_reviews`, which calls the scraper with
`pass_loc='pass_info.json'` (preprocess.py:257). -/
def scrape_reviews (env : RedditEnv) (dataframe : List Row) : List Row :=
  scrape_reddit_reviews env dataframe (strLit "pass_info.json")

/-- The WordNet POS constants of `nltk.corpus.wordnet`. -/
def wordnetADJ : Str := strLit "a"

/-- `wordnet.VERB`. -/
def wordnetVERB : Str := strLit "v"

/-- `wordnet.NOUN`. -/
def wordnetNOUN : Str := strLit "n"

/-- `wordnet.ADV`. -/
def wordnetADV : Str := strLit "r"

/-- `str.startswith` for a single-character needle list. -/
def strStarts (p : Str) (s : Str) : Bool :=
  match p, s with
  | [], _ => true
  | _ :: _, [] => false
  | a :: p, b :: s => a = b && strStarts p s

/-- `get_wordnet_pos` (review_processing.py:10-24). -/
def get_wordnet_pos (treebank_tag : Str) : Str :=
  if strStarts (strLit "J") treebank_tag then wordnetADJ
  else if strStarts (strLit "V") treebank_tag then wordnetVERB
  else if strStarts (strLit "N") treebank_tag then wordnetNOUN
  else if strStarts (strLit "R") treebank_tag then wordnetADV
  else wordnetNOUN

/-- Suffix test on strings, for the spec-side host predicate. -/
def strEnds (suf : Str) (s : Str) : Bool := decide (s.drop (s.length - suf.length) = suf)

/-- Modelled from the spec: "a URL whose host is the fixed discussion site
(reddit)" — the URL's parsed host is `reddit.com` itself or a subdomain of
it.  The source has no such host check (it greps for a substring), so this
predicate is written from the spec's words for comparison. -/
def specHostIsRedditB (r : Row) : Bool :=
  match r.url with
  | Cell.str u =>
      let host := (pyUrlparse u).netloc
      decide (host = strLit "reddit.com") || strEnds (strLit ".reddit.com") host
  | _ => false

/-- The invariant C2 claims of the final cleaned table: every surviving
record has a non-missing style occurring at least 100 times in that final
table, and a URL whose host is reddit. -/
def claimedFinalInvariantB (out : List Row) : Bool :=
  out.all (fun r =>
    (match r.style with
     | Cell.str s => decide (100 ≤ styleCount s out)
     | _ => false) && specHostIsRedditB r)

/-- A fresh input row as `pd.read_excel(..., dtype=str)` delivers it. -/
def mkInputRow (style reviewer rating url : String) : Row :=
  { timestamp := Cell.missing, style := Cell.str (strLit style),
    reviewer := Cell.str (strLit reviewer), rating := Cell.str (strLit rating),
    url := Cell.str (strLit url), scheme := Cell.missing, netloc := Cell.missing,
    path := Cell.missing, review_text := Cell.missing }

/-- A well-formed record: frequent style, parsable rating, reddit URL. -/
def goodRow : Row := mkInputRow "bourbon" "u1" "90" "https://www.reddit.com/r/a"

/-- A record whose URL's host is not reddit but contains `reddit.com`. -/
def evilRow : Row := mkInputRow "bourbon" "u2" "91" "evilreddit.com/r/a"

/-- A record with the wrong host entirely (the spec's `example.com`). -/
def exampleRow : Row := mkInputRow "bourbon" "u3" "92/100" "example.com"

/-- C2's counterexample batch: 100 `bourbon` rows, one of which is dropped
by the URL filter (so the final per-style count is 99) and one of which
survives with a non-reddit host. -/
def rowsC2 : List Row := List.replicate 98 goodRow ++ [evilRow, exampleRow]

/-- C5's counterexample batch: 100 `bourbon` rows, one with a non-reddit
host whose URL still contains the substring `reddit.com`. -/
def rowsC5 : List Row := List.replicate 99 goodRow ++ [evilRow]

/-- C2's witness batch: 100 identical well-formed rows. -/
def rowsW : List Row := List.replicate 100 goodRow

/-- What `process` makes of `goodRow`. -/
def goodRowOut : Row :=
  { goodRow with rating := Cell.num (PyFloat.finite 90),
                 scheme := Cell.str (strLit "https"),
                 netloc := Cell.str (strLit "www.reddit.com"),
                 path := Cell.str (strLit "/r/a") }

/-- C4's counterexample: an invalid entry whose `www.` occurrence is in the
middle of the path, not a leading prefix. -/
def c4Row : Row :=
  { mkInputRow "bourbon" "u1" "90" "reddit.com/a/www.b" with scheme := Cell.missing }

/-- Empty credentials for the scraping counterexample. -/
def creds0 : Creds := { client_id := [], client_secret := [], password := [], username := [] }

/-- A short comment by the reviewer. -/
def nodeShort : CommentNode :=
  { isMore := false, author := Cell.str (strLit "u1"), body := strLit "aa" }

/-- A longer comment by the reviewer. -/
def nodeLong : CommentNode :=
  { isMore := false, author := Cell.str (strLit "u1"), body := strLit "bbb" }

/-- C7's counterexample environment: the thread has two comments by the
reviewer but traversal raises after the first one (`errAt = some 1`). -/
def env0 : RedditEnv :=
  { readFile := fun _ => creds0,
    fetch := fun _ _ => ([nodeShort, nodeLong], some 1) }

/-- The record being scraped in C7's counterexample. -/
def scrapeRow0 : Row := mkInputRow "bourbon" "u1" "90" "https://www.reddit.com/r/a"

/-- Does a string not begin with whitespace?  (Both `pyStrip s` and its
reverse satisfy it; it is what makes normalization idempotent.) -/
def noLeadWs (l : Str) : Bool :=
  match l with
  | [] => true
  | c :: _ => !isSpaceB c

theorem lowerChar_idem (c : Nat) : lowerChar (lowerChar c) = lowerChar c := by
  by_cases h : 65 ≤ c ∧ c ≤ 90
  · simp only [lowerChar, if_pos h]
    rw [if_neg]
    omega
  · simp only [lowerChar, if_neg h]

theorem isSpaceB_lowerChar (c : Nat) : isSpaceB (lowerChar c) = isSpaceB c := by
  unfold lowerChar
  split
  · have h1 : isSpaceB (c + 32) = false := by simp [isSpaceB]; omega
    have h2 : isSpaceB c = false := by simp [isSpaceB]; omega
    rw [h1, h2]
  · rfl

theorem noLeadWs_dropWhile (l : Str) : noLeadWs (l.dropWhile isSpaceB) = true := by
  induction l with
  | nil => rfl
  | cons c t ih =>
      rw [List.dropWhile_cons]
      split
      · exact ih
      · simp_all [noLeadWs]

theorem dropWhile_of_noLeadWs {l : Str} (h : noLeadWs l = true) :
    l.dropWhile isSpaceB = l := by
  cases l with
  | nil => rfl
  | cons c t =>
      rw [List.dropWhile_cons, if_neg]
      simp_all [noLeadWs]

theorem noLeadWs_dropTrail {l : Str} (h : noLeadWs l = true) :
    noLeadWs (dropTrail l) = true := by
  cases l with
  | nil => rfl
  | cons c t =>
      have hc : isSpaceB c = false := by simp_all [noLeadWs]
      unfold dropTrail
      rw [List.reverse_cons, List.dropWhile_append]
      split
      · simp [List.dropWhile_cons, hc, noLeadWs]
      · rw [List.reverse_append]
        simp [List.dropWhile_cons, hc, noLeadWs]

theorem noLeadWs_pyStrip (s : Str) : noLeadWs (pyStrip s) = true :=
  noLeadWs_dropTrail (noLeadWs_dropWhile s)

theorem noLeadWs_reverse_pyStrip (s : Str) : noLeadWs (pyStrip s).reverse = true := by
  unfold pyStrip dropTrail
  rw [List.reverse_reverse]
  exact noLeadWs_dropWhile _

theorem pyStrip_of_clean {l : Str} (h1 : noLeadWs l = true)
    (h2 : noLeadWs l.reverse = true) : pyStrip l = l := by
  unfold pyStrip dropTrail dropLead
  rw [dropWhile_of_noLeadWs h1, dropWhile_of_noLeadWs h2, List.reverse_reverse]

theorem noLeadWs_pyLower (l : Str) : noLeadWs (pyLower l) = noLeadWs l := by
  cases l with
  | nil => rfl
  | cons c t => simp [pyLower, noLeadWs, isSpaceB_lowerChar]

theorem pyLower_idem (l : Str) : pyLower (pyLower l) = pyLower l := by
  unfold pyLower
  rw [List.map_map]
  exact List.map_congr_left (fun a _ => lowerChar_idem a)

theorem strip_and_lower_cell_idem (c : Cell) :
    strip_and_lower_cell (strip_and_lower_cell c) = strip_and_lower_cell c := by
  cases c with
  | missing => rfl
  | num v => rfl
  | str s =>
      by_cases h : pyLower (pyStrip s) = []
      · simp [strip_and_lower_cell, h]
      · have hlead : noLeadWs (pyLower (pyStrip s)) = true := by
          rw [noLeadWs_pyLower]; exact noLeadWs_pyStrip s
        have htrail : noLeadWs ((pyLower (pyStrip s)).reverse) = true := by
          unfold pyLower
          rw [← List.map_reverse]
          rw [show (List.map lowerChar (pyStrip s).reverse) = pyLower ((pyStrip s).reverse) from rfl]
          rw [noLeadWs_pyLower]
          exact noLeadWs_reverse_pyStrip s
        have key : pyLower (pyStrip (pyLower (pyStrip s))) = pyLower (pyStrip s) := by
          rw [pyStrip_of_clean hlead htrail, pyLower_idem]
        simp [strip_and_lower_cell, h, key]

/-- C9: the field normalization `_strip_and_lower_series` (trim, lowercase,
empty → missing) is idempotent: applying it twice to a column gives the
same column as applying it once. -/
theorem C9_strip_and_lower_idempotent (col : List Cell) :
    strip_and_lower_series (strip_and_lower_series col) = strip_and_lower_series col := by
  unfold strip_and_lower_series
  rw [List.map_map]
  exact List.map_congr_left (fun c _ => strip_and_lower_cell_idem c)

/-- C10: `_scrape_reddit_reviews_` reads the literal `'pass_info.json'`
path, so its result — for any environment and any dataframe — is the same
for every value of the `pass_loc` argument, and in particular equals the
result of `whisky_archive_processor.scrape_reviews`, which passes
`pass_loc='pass_info.json'`. -/
theorem C10_pass_loc_never_read (env : RedditEnv) (dataframe : List Row) (pass_loc : Str) :
    scrape_reddit_reviews env dataframe pass_loc = scrape_reviews env dataframe := rfl

/-- C1: the rating pipeline of `whisky_archive_processor.process`
(normalize, strip `'/100'`, `astype(float, errors='ignore')`) evaluated on
the batch containing the spec's three examples.  Because pandas'
`errors='ignore'` converts the column as a whole or not at all, the
presence of the unparsable `"n/a"` leaves every rating a string: `"92/100"`
does not become the float 92.0, and `"n/a"` does not become missing —
contradicting the claimed per-record failure semantics.  On a batch with no
unparsable value the conversion does happen. -/
theorem C1_rating_batch_all_or_nothing :
    ((ratingAstypeStage (ratingStripStage (ratingNormStage
        [mkInputRow "bourbon" "u1" "92/100" "https://www.reddit.com/r/a",
         mkInputRow "bourbon" "u2" "  87 " "https://www.reddit.com/r/b",
         mkInputRow "bourbon" "u3" "n/a" "https://www.reddit.com/r/c"]))).map (fun r => r.rating)
      = [Cell.str (strLit "92"), Cell.str (strLit "87"), Cell.str (strLit "n/a")]) ∧
    ((ratingAstypeStage (ratingStripStage (ratingNormStage
        [mkInputRow "bourbon" "u1" "92/100" "https://www.reddit.com/r/a",
         mkInputRow "bourbon" "u2" "  87 " "https://www.reddit.com/r/b"]))).map (fun r => r.rating)
      = [Cell.num (PyFloat.finite 92), Cell.num (PyFloat.finite 87)]) ∧
    ¬ ((ratingAstypeStage (ratingStripStage (ratingNormStage
        [mkInputRow "bourbon" "u1" "92/100" "https://www.reddit.com/r/a",
         mkInputRow "bourbon" "u2" "  87 " "https://www.reddit.com/r/b",
         mkInputRow "bourbon" "u3" "n/a" "https://www.reddit.com/r/c"]))).map (fun r => r.rating)
      = [Cell.num (PyFloat.finite 92), Cell.num (PyFloat.finite 87), Cell.missing]) := by
  refine ⟨by decide, by decide, by decide⟩

theorem mem_keep_frequent_iff (series : List Cell) (count : Nat) (l : Str) :
    l ∈ keep_frequent series count ↔
      l ∈ strCells series ∧ count ≤ countStr l (strCells series) := by
  unfold keep_frequent
  rw [List.mem_filter, List.mem_dedup]
  simp

/-- C3: `_keep_frequent_` returns exactly the (distinct) labels whose
occurrence count in the input column meets the threshold: membership in
the result is equivalent to occurring in the column with count ≥ T, the
result never repeats a label, and if no label meets the threshold the
result is empty. -/
theorem C3_keep_frequent_exact (series : List Cell) (count : Nat) :
    (∀ l : Str, l ∈ keep_frequent series count ↔
        l ∈ strCells series ∧ count ≤ countStr l (strCells series)) ∧
    (keep_frequent series count).Nodup ∧
    ((∀ l ∈ strCells series, countStr l (strCells series) < count) →
        keep_frequent series count = []) := by
  refine ⟨fun l => mem_keep_frequent_iff series count l, ?_, ?_⟩
  · exact List.Nodup.filter _ (List.nodup_dedup _)
  · intro h
    unfold keep_frequent
    rw [List.filter_eq_nil_iff]
    intro a ha
    have := h a (List.mem_dedup.1 ha)
    simp only [decide_eq_true_eq]
    omega

/-- C3 witness: with labels `a, a, b` and threshold 2, `a` is kept; with
threshold 2 over `a, b` alone, no label qualifies and the result is empty. -/
theorem C3_keep_frequent_exact_witness :
    strLit "a" ∈ keep_frequent
        [Cell.str (strLit "a"), Cell.str (strLit "a"), Cell.str (strLit "b")] 2 ∧
    keep_frequent [Cell.str (strLit "a"), Cell.str (strLit "b")] 2 = [] := by
  constructor
  · exact ((C3_keep_frequent_exact
      [Cell.str (strLit "a"), Cell.str (strLit "a"), Cell.str (strLit "b")] 2).1
        (strLit "a")).2 (by decide)
  · exact (C3_keep_frequent_exact
      [Cell.str (strLit "a"), Cell.str (strLit "b")] 2).2.2 (by decide)

theorem strStarts_single_iff (c : Nat) (s : Str) :
    strStarts [c] s = true ↔ s.head? = some c := by
  cases s with
  | nil => simp [strStarts]
  | cons b t =>
      simp [strStarts]
      constructor
      · intro h; omega
      · intro h; omega

/-- C8: `get_wordnet_pos` maps treebank tags starting with `J` to the
WordNet adjective tag, `V` to verb, `N` to noun, `R` to adverb, and every
other tag — in particular the empty tag — to the noun default. -/
theorem C8_get_wordnet_pos_cases (tag : Str) :
    (tag.head? = some 74 → get_wordnet_pos tag = wordnetADJ) ∧
    (tag.head? = some 86 → get_wordnet_pos tag = wordnetVERB) ∧
    (tag.head? = some 78 → get_wordnet_pos tag = wordnetNOUN) ∧
    (tag.head? = some 82 → get_wordnet_pos tag = wordnetADV) ∧
    ((∀ c ∈ tag.head?, c ≠ 74 ∧ c ≠ 86 ∧ c ≠ 78 ∧ c ≠ 82) →
        get_wordnet_pos tag = wordnetNOUN) := by
  have hJ : strStarts (strLit "J") tag = strStarts [74] tag := rfl
  have hV : strStarts (strLit "V") tag = strStarts [86] tag := rfl
  have hN : strStarts (strLit "N") tag = strStarts [78] tag := rfl
  have hR : strStarts (strLit "R") tag = strStarts [82] tag := rfl
  refine ⟨?_, ?_, ?_, ?_, ?_⟩
  · intro h
    unfold get_wordnet_pos
    rw [if_pos (by rw [hJ, strStarts_single_iff]; exact h)]
  · intro h
    unfold get_wordnet_pos
    rw [if_neg (by rw [hJ, strStarts_single_iff, h]; simp),
        if_pos (by rw [hV, strStarts_single_iff]; exact h)]
  · intro h
    unfold get_wordnet_pos
    rw [if_neg (by rw [hJ, strStarts_single_iff, h]; simp),
        if_neg (by rw [hV, strStarts_single_iff, h]; simp),
        if_pos (by rw [hN, strStarts_single_iff]; exact h)]
  · intro h
    unfold get_wordnet_pos
    rw [if_neg (by rw [hJ, strStarts_single_iff, h]; simp),
        if_neg (by rw [hV, strStarts_single_iff, h]; simp),
        if_neg (by rw [hN, strStarts_single_iff, h]; simp),
        if_pos (by rw [hR, strStarts_single_iff]; exact h)]
  · intro h
    unfold get_wordnet_pos
    cases htag : tag.head? with
    | none =>
        have : ∀ c, strStarts [c] tag = false := by
          intro c
          cases hs : strStarts [c] tag
          · rfl
          · rw [strStarts_single_iff] at hs; rw [htag] at hs; cases hs
        rw [if_neg (by rw [hJ]; simp [this]),
            if_neg (by rw [hV]; simp [this]),
            if_neg (by rw [hN]; simp [this]),
            if_neg (by rw [hR]; simp [this])]
    | some c =>
        have hc := h c (by rw [htag]; rfl)
        have : ∀ d, d ≠ c → strStarts [d] tag = false := by
          intro d hd
          cases hs : strStarts [d] tag
          · rfl
          · rw [strStarts_single_iff, htag] at hs
            injection hs with hs
            exact absurd hs.symm hd
        rw [if_neg (by rw [hJ]; simp [this 74 (fun he => hc.1 (he ▸ rfl))]),
            if_neg (by rw [hV]; simp [this 86 (fun he => hc.2.1 (he ▸ rfl))]),
            if_neg (by rw [hN]; simp [this 78 (fun he => hc.2.2.1 (he ▸ rfl))]),
            if_neg (by rw [hR]; simp [this 82 (fun he => hc.2.2.2 (he ▸ rfl))])]

/-- C8 witness: the mapping at the concrete tags `JJ`, `VBD`, `NN`, `RB`
and the unrecognized `XX`. -/
theorem C8_get_wordnet_pos_cases_witness :
    get_wordnet_pos (strLit "JJ") = wordnetADJ ∧
    get_wordnet_pos (strLit "VBD") = wordnetVERB ∧
    get_wordnet_pos (strLit "NN") = wordnetNOUN ∧
    get_wordnet_pos (strLit "RB") = wordnetADV ∧
    get_wordnet_pos (strLit "XX") = wordnetNOUN :=
  ⟨(C8_get_wordnet_pos_cases (strLit "JJ")).1 (by decide),
   (C8_get_wordnet_pos_cases (strLit "VBD")).2.1 (by decide),
   (C8_get_wordnet_pos_cases (strLit "NN")).2.2.1 (by decide),
   (C8_get_wordnet_pos_cases (strLit "RB")).2.2.2.1 (by decide),
   (C8_get_wordnet_pos_cases (strLit "XX")).2.2.2.2 (by decide)⟩

theorem le_foldl_max (l : List Nat) (a : Nat) : a ≤ l.foldl max a := by
  induction l generalizing a with
  | nil => exact Nat.le_refl a
  | cons c t ih => exact Nat.le_trans (Nat.le_max_left a c) (ih (max a c))

theorem mem_le_foldl_max (l : List Nat) (a : Nat) : ∀ x ∈ l, x ≤ l.foldl max a := by
  induction l generalizing a with
  | nil => intro x hx; cases hx
  | cons c t ih =>
      intro x hx
      cases hx with
      | head => exact Nat.le_trans (Nat.le_max_right a c) (le_foldl_max t (max a c))
      | tail _ h => exact ih (max a c) x h

theorem foldl_max_mem_or_init (l : List Nat) (a : Nat) :
    l.foldl max a ∈ l ∨ l.foldl max a = a := by
  induction l generalizing a with
  | nil => exact Or.inr rfl
  | cons c t ih =>
      rcases ih (max a c) with h | h
      · exact Or.inl (List.mem_cons_of_mem c h)
      · rw [List.foldl_cons, h]
        rcases max_choice a c with hm | hm
        · exact Or.inr hm
        · exact Or.inl (by rw [hm]; exact List.mem_cons_self c t)

theorem pyMax_mem {l : List Nat} (h : l ≠ []) : pyMax l ∈ l := by
  rcases foldl_max_mem_or_init l 0 with hm | hm
  · exact hm
  · cases l with
    | nil => exact absurd rfl h
    | cons c t =>
        have hc : c ≤ (c :: t).foldl max 0 := mem_le_foldl_max (c :: t) 0 c (List.mem_cons_self c t)
        have hc0 : c = 0 := by omega
        show List.foldl max 0 (c :: t) ∈ c :: t
        rw [hm, ← hc0]
        exact List.mem_cons_self c t

theorem indexOf_spec {l : List Nat} {m : Nat} (hm : m ∈ l) :
    l.indexOf m < l.length ∧ l.getD (l.indexOf m) 0 = m ∧
      ∀ j < l.indexOf m, l.getD j 0 ≠ m := by
  induction l with
  | nil => cases hm
  | cons c t ih =>
      by_cases hc : c = m
      · have h0 : (c :: t).indexOf m = 0 := by
          rw [List.indexOf_cons]
          have : (c == m) = true := beq_iff_eq.2 hc
          rw [this]; rfl
        refine ⟨by rw [h0]; exact Nat.succ_pos _, by rw [h0]; exact hc, ?_⟩
        intro j hj
        rw [h0] at hj
        omega
      · have hmt : m ∈ t := by
          cases hm with
          | head => exact absurd rfl hc
          | tail _ h => exact h
        have h1 : (c :: t).indexOf m = t.indexOf m + 1 := by
          rw [List.indexOf_cons]
          have : (c == m) = false := beq_eq_false_iff_ne.2 hc
          rw [this]; rfl
        rcases ih hmt with ⟨ihl, ihg, ihj⟩
        refine ⟨by rw [h1]; simpa using Nat.succ_lt_succ ihl, by rw [h1]; exact ihg, ?_⟩
        intro j hj
        rw [h1] at hj
        cases j with
        | zero => exact hc
        | succ j' => exact ihj j' (by omega)

theorem getD_map_length (l : List Str) (j : Nat) (hj : j < l.length) :
    (l.map List.length).getD j 0 = (l.getD j []).length := by
  have hj' : j < (l.map List.length).length := by rw [List.length_map]; exact hj
  rw [List.getD_eq_getElem _ _ hj', List.getD_eq_getElem _ _ hj, List.getElem_map]

theorem getD_length_le_pyMax (l : List Str) (j : Nat) (hj : j < l.length) :
    (l.getD j []).length ≤ pyMax (l.map List.length) := by
  rw [← getD_map_length l j hj]
  have hj' : j < (l.map List.length).length := by rw [List.length_map]; exact hj
  rw [List.getD_eq_getElem _ _ hj']
  exact mem_le_foldl_max _ 0 _ (List.getElem_mem hj')

/-- C6: the comment-selection rule of `_scrape_reddit_reviews_`: zero
candidates give a missing value, one candidate is kept as is, and among two
or more candidates the selected one is a candidate of maximal character
count that strictly exceeds every earlier candidate's length (i.e. ties go
to the first-encountered candidate). -/
theorem C6_comment_selection (cands : List Str) :
    (select_review_comment [] = Cell.missing) ∧
    (∀ c : Str, select_review_comment [c] = Cell.str c) ∧
    (2 ≤ cands.length →
      ∃ i < cands.length,
        select_review_comment cands = Cell.str (cands.getD i []) ∧
        (∀ j < cands.length, (cands.getD j []).length ≤ (cands.getD i []).length) ∧
        (∀ j < i, (cands.getD j []).length < (cands.getD i []).length)) := by
  refine ⟨rfl, fun c => rfl, ?_⟩
  intro h2
  cases cands with
  | nil => simp at h2
  | cons a t1 =>
    cases t1 with
    | nil => simp at h2
    | cons b t =>
      set l : List Str := a :: b :: t with hl
      set lens : List Nat := l.map List.length with hlens
      set m : Nat := pyMax lens with hmdef
      have hmm : m ∈ lens := pyMax_mem (by simp [hlens, hl])
      rcases indexOf_spec hmm with ⟨hlt, hget, hearlier⟩
      have hlen : lens.length = l.length := by rw [hlens, List.length_map]
      refine ⟨lens.indexOf m, by rw [← hlen]; exact hlt, rfl, ?_, ?_⟩
      · intro j hj
        have h1 : (l.getD j []).length ≤ m := getD_length_le_pyMax l j hj
        have h2' : (l.getD (lens.indexOf m) []).length = m := by
          rw [← getD_map_length l _ (by rw [← hlen]; exact hlt)]
          exact hget
        omega
      · intro j hj
        have hjl : j < l.length := by
          have : lens.indexOf m < l.length := by rw [← hlen]; exact hlt
          omega
        have h1 : (l.getD j []).length ≤ m := getD_length_le_pyMax l j hjl
        have hne : (l.getD j []).length ≠ m := by
          rw [← getD_map_length l j hjl]
          exact hearlier j hj
        have h2' : (l.getD (lens.indexOf m) []).length = m := by
          rw [← getD_map_length l _ (by rw [← hlen]; exact hlt)]
          exact hget
        omega

/-- C6 witness: the spec's concrete cases — zero candidates, one
candidate, and the pair `["short", "a much longer comment"]`, where the
longer comment is selected. -/
theorem C6_comment_selection_witness :
    select_review_comment [] = Cell.missing ∧
    select_review_comment [strLit "only"] = Cell.str (strLit "only") ∧
    select_review_comment [strLit "short", strLit "a much longer comment"]
      = Cell.str (strLit "a much longer comment") := by
  refine ⟨(C6_comment_selection []).1, (C6_comment_selection []).2.1 (strLit "only"), ?_⟩
  rcases (C6_comment_selection [strLit "short", strLit "a much longer comment"]).2.2
    (by decide) with ⟨i, hi, hsel, hmax, _⟩
  have h5 : ¬ ((strLit "a much longer comment").length ≤ (strLit "short").length) := by decide
  have hi2 : i < 2 := by simpa using hi
  match i, hi2 with
  | 0, _ => exact absurd (hmax 1 (by decide)) (by simpa using h5)
  | 1, _ => exact hsel

theorem select_eq_missing_iff (cands : List Str) :
    select_review_comment cands = Cell.missing ↔ cands = [] := by
  cases cands with
  | nil => simp [select_review_comment]
  | cons a t =>
      cases t with
      | nil => simp [select_review_comment]
      | cons b t' => simp [select_review_comment]

/-- C7 counterexample: a record whose thread traversal raises after one of
the reviewer's two comments has been collected (`errAt = some 1`).  The
bare `except: pass` swallows the error and the selection rule runs on the
partially collected list, so the record's comment is the collected `"aa"` —
not the missing value the claim requires for every record with a
fetch/parse error. -/
theorem C7_counterexample_partial_collection :
    (env0.fetch (env0.readFile (strLit "pass_info.json")) scrapeRow0.url).2 = some 1 ∧
    (scrape_reddit_reviews env0 [scrapeRow0] (strLit "pass_info.json")).map
        (fun r => r.review_text) = [Cell.str (strLit "aa")] ∧
    Cell.str (strLit "aa") ≠ Cell.missing := by
  refine ⟨rfl, by decide, by decide⟩

/-- C7 amended: a fetch/parse error after `k` traversed comment nodes is
swallowed, and the record behaves exactly as a successful fetch of those
first `k` nodes: the selection rule runs on the candidates collected before
the failure, the value is missing precisely when that partial candidate
list is empty (in particular whenever the fetch itself fails, `k = 0`), and
the loop always produces one output row per input row — the batch never
aborts. -/
theorem C7_error_swallowed (usr : Cell) (nodes : List CommentNode) (k : Nat) :
    scrapeRecord usr nodes (some k) = scrapeRecord usr (nodes.take k) none ∧
    scrapeRecord usr nodes (some 0) = Cell.missing ∧
    (scrapeRecord usr nodes (some k) = Cell.missing ↔
        collectAuthored usr (nodes.take k) = []) ∧
    (∀ (env : RedditEnv) (df : List Row) (p : Str),
        (scrape_reddit_reviews env df p).length = df.length) := by
  refine ⟨rfl, rfl, ?_, ?_⟩
  · exact select_eq_missing_iff _
  · intro env df p
    unfold scrape_reddit_reviews
    exact List.length_map df _

/-- C4 counterexample: the invalid entry `"reddit.com/a/www.b"` has no
leading `www.`, so under the claim its repaired URL would be
`"https://www.reddit.com/a/www.b"`.  The code's
`str.replace('www.', '')` removes every occurrence of the pattern
anywhere in the string, so the repaired URL is actually
`"https://www.reddit.com/a/b"`. -/
theorem C4_counterexample_mid_string_www :
    url_fix [c4Row] = [{ c4Row with url := Cell.str (strLit "https://www.reddit.com/a/b") }] ∧
    url_fix [c4Row] ≠ [{ c4Row with url := Cell.str (strLit "https://www.reddit.com/a/www.b") }] := by
  refine ⟨by decide, by decide⟩

/-- C4 amended: `_url_fix_` leaves rows with a parsed scheme unchanged and,
for each row without one, removes every occurrence of the pattern `www.`
(three `w`s followed by any character — not just a leading `www.` prefix,
since the pandas call is an unanchored regex replacement) from the URL and
then prepends `https://www.`; the result is exactly the rewritten invalid
rows followed by the untouched valid rows. -/
theorem C4_url_fix_membership (t : List Row) (r : Row) :
    (r ∈ url_fix t ↔
      ((∃ r₀ ∈ t, r₀.scheme = Cell.missing ∧ r = urlPrependHttps (urlReplaceWww r₀)) ∨
       (r ∈ t ∧ r.scheme ≠ Cell.missing))) ∧
    (∀ (r₀ : Row) (s : Str), r₀.url = Cell.str s →
      (urlPrependHttps (urlReplaceWww r₀)).url
        = Cell.str (strLit "https://www." ++ replaceAll wwwPat [] s)) := by
  constructor
  · unfold url_fix
    rw [List.mem_append]
    constructor
    · intro h
      rcases h with h | h
      · left
        rcases List.mem_map.1 h with ⟨r1, hr1, hr⟩
        rcases List.mem_map.1 hr1 with ⟨r0, hr0, hr1'⟩
        have hmem := (List.mem_filter.1 hr0).1
        have hsch : r0.scheme = Cell.missing := by
          have := (List.mem_filter.1 hr0).2
          simpa [schemeMissingB] using this
        exact ⟨r0, hmem, hsch, by rw [← hr, ← hr1']⟩
      · right
        refine ⟨(List.mem_filter.1 h).1, ?_⟩
        have := (List.mem_filter.1 h).2
        simpa [schemeMissingB] using this
    · intro h
      rcases h with ⟨r0, hr0, hsch, hr⟩ | ⟨hmem, hsch⟩
      · left
        refine List.mem_map.2 ⟨urlReplaceWww r0, List.mem_map.2 ⟨r0, ?_, rfl⟩, hr.symm⟩
        exact List.mem_filter.2 ⟨hr0, by simp [schemeMissingB, hsch]⟩
      · right
        exact List.mem_filter.2 ⟨hmem, by simpa [schemeMissingB] using hsch⟩
  · intro r0 s hurl
    simp [urlReplaceWww, urlPrependHttps, cellReplace, hurl]

set_option maxRecDepth 100000 in
/-- C5 counterexample: in a 100-row batch where one record's URL is
`"evilreddit.com/r/a"`, repair turns it into
`"https://www.evilreddit.com/r/a"`.  Its host is `www.evilreddit.com`, not
the discussion site, yet the record survives the final filter because the
filter only greps for the substring pattern `reddit.com` — so `process`
does not drop every record whose final URL fails to reference the reddit
host. -/
theorem C5_counterexample_substring_host :
    (process (fun c => c) rowsC5).all specHostIsRedditB = false := by
  decide

/-- C5 amended: the final stage of `process` is a pure filter by the regex
search `str.contains('reddit.com')` on the repaired URL string: a record
survives `process` exactly when it reaches the final filter and its URL
matches that substring pattern (which a non-reddit host such as
`evilreddit.com` also does); `"example.com"` survives repair but fails the
pattern and is dropped. -/
theorem C5_url_filter_is_substring_match (toDT : Cell → Cell) (rows : List Row) (r : Row) :
    r ∈ process toDT rows ↔
      r ∈ beforeUrlFilter toDT rows ∧ urlMatchesRedditB r = true := by
  unfold process urlFilterStage
  exact List.mem_filter

theorem style_of_mem_map {t : List Row} {r : Row} {f : Row → Row}
    (h : r ∈ t.map f) (hf : ∀ x, (f x).style = x.style) :
    ∃ r₀ ∈ t, r.style = r₀.style := by
  rcases List.mem_map.1 h with ⟨r₀, hr₀, hfr⟩
  exact ⟨r₀, hr₀, by rw [← hfr, hf r₀]⟩

theorem style_src_beforeUrlFilter (toDT : Cell → Cell) (rows : List Row) {r : Row}
    (h : r ∈ beforeUrlFilter toDT rows) :
    ∃ r₀ ∈ freqStage (canonTable toDT rows), r.style = r₀.style := by
  unfold beforeUrlFilter url_fix at h
  have hparse : ∀ {r' : Row} {t : List Row}, r' ∈ url_parse t →
      ∃ r₁ ∈ t, r'.style = r₁.style := by
    intro r' t h'
    refine style_of_mem_map h' ?_
    intro x
    cases hc : strip_and_lower_cell x.url <;> rfl
  have step : ∃ r₁ ∈ url_parse (ratingAstypeStage (ratingStripStage (ratingNormStage
      (reviewerStage (freqStage (canonTable toDT rows)))))), r.style = r₁.style := by
    rcases List.mem_append.1 h with h' | h'
    · rcases style_of_mem_map h' (fun x => rfl) with ⟨r₁, h₁, e₁⟩
      rcases style_of_mem_map h₁ (fun x => rfl) with ⟨r₂, h₂, e₂⟩
      exact ⟨r₂, (List.mem_filter.1 h₂).1, by rw [e₁, e₂]⟩
    · exact ⟨r, (List.mem_filter.1 h').1, rfl⟩
  rcases step with ⟨r₁, h₁, e₁⟩
  rcases hparse h₁ with ⟨r₂, h₂, e₂⟩
  have hastype : ∃ r₃ ∈ ratingStripStage (ratingNormStage (reviewerStage
      (freqStage (canonTable toDT rows)))), r₂.style = r₃.style := by
    unfold ratingAstypeStage at h₂
    split at h₂
    · exact style_of_mem_map h₂ (fun x => rfl)
    · exact ⟨r₂, h₂, rfl⟩
  rcases hastype with ⟨r₃, h₃, e₃⟩
  unfold ratingStripStage at h₃
  rcases style_of_mem_map h₃ (fun x => rfl) with ⟨r₄, h₄, e₄⟩
  unfold ratingNormStage at h₄
  rcases style_of_mem_map h₄ (fun x => rfl) with ⟨r₅, h₅, e₅⟩
  unfold reviewerStage at h₅
  rcases style_of_mem_map h₅ (fun x => rfl) with ⟨r₆, h₆, e₆⟩
  exact ⟨r₆, h₆, by rw [e₁, e₂, e₃, e₄, e₅, e₆]⟩

theorem mem_freqStage {t : List Row} {r : Row} (h : r ∈ freqStage t) :
    ∃ s, r.style = Cell.str s ∧ 100 ≤ styleCount s t := by
  unfold freqStage at h
  have h1 := List.mem_filter.1 h
  cases hstyle : r.style with
  | missing =>
      exfalso
      have := h1.2
      rw [hstyle] at this
      simp [styleKeptB] at this
  | num v =>
      exfalso
      have := h1.2
      rw [hstyle] at this
      simp [styleKeptB] at this
  | str s =>
      have hk : s ∈ keep_frequent (t.map (fun r => r.style)) 100 := by
        have := h1.2
        rw [hstyle] at this
        simpa [styleKeptB] using this
      exact ⟨s, rfl, ((mem_keep_frequent_iff _ _ _).1 hk).2⟩

/-- C2 amended: after `whisky_archive_processor.process`, every surviving
record has a non-missing style label whose occurrence count is at least 100
in the canonicalized table over which the frequency filter was computed
(not necessarily in the final cleaned set, whose counts can drop below 100
when the later URL filter removes rows), and a URL string matching the
regex pattern `reddit.com` (a substring search, not a host check). -/
theorem C2_cleaning_invariant (toDT : Cell → Cell) (rows : List Row) (r : Row)
    (h : r ∈ process toDT rows) :
    (∃ s, r.style = Cell.str s ∧ 100 ≤ styleCount s (canonTable toDT rows)) ∧
    (∃ u, r.url = Cell.str u ∧ patContains redditPat u = true) := by
  unfold process urlFilterStage at h
  have h1 := List.mem_filter.1 h
  constructor
  · rcases style_src_beforeUrlFilter toDT rows h1.1 with ⟨r₀, h₀, e₀⟩
    rcases mem_freqStage h₀ with ⟨s, hs, hc⟩
    exact ⟨s, by rw [e₀, hs], hc⟩
  · have h2 := h1.2
    cases hurl : r.url with
    | missing => exfalso; rw [urlMatchesRedditB, hurl] at h2; cases h2
    | num v => exfalso; rw [urlMatchesRedditB, hurl] at h2; cases h2
    | str u =>
        refine ⟨u, rfl, ?_⟩
        rw [urlMatchesRedditB, hurl] at h2
        exact h2

set_option maxRecDepth 100000 in
/-- C2 witness: on a batch of 100 well-formed `bourbon` rows, the processed
row is in the output and the amended invariant is discharged at it. -/
theorem C2_cleaning_invariant_witness :
    (∃ s, goodRowOut.style = Cell.str s ∧
        100 ≤ styleCount s (canonTable (fun c => c) rowsW)) ∧
    (∃ u, goodRowOut.url = Cell.str u ∧ patContains redditPat u = true) :=
  C2_cleaning_invariant (fun c => c) rowsW goodRowOut (by decide)

set_option maxRecDepth 100000 in
/-- C2 counterexample: in `rowsC2` all 100 rows carry the style `bourbon`,
so the frequency filter keeps them, but the URL filter then drops the
`example.com` row: only 99 `bourbon` rows remain, so no surviving record's
style reaches 100 occurrences in the final cleaned set — and the surviving
`evilreddit.com` row's URL host is not the discussion site either.  The
claimed final-set invariant is therefore false. -/
theorem C2_counterexample_final_set :
    claimedFinalInvariantB (process (fun c => c) rowsC2) = false := by
  decide

/-- C4 witness: instantiating the amended repair rule at the spec's own
example, the schemeless `"reddit.com/r/x/1"` becomes
`"https://www.reddit.com/r/x/1"`. -/
theorem C4_url_fix_membership_witness :
    (urlPrependHttps (urlReplaceWww (mkInputRow "bourbon" "u1" "90" "reddit.com/r/x/1"))).url
      = Cell.str (strLit "https://www.reddit.com/r/x/1") := by
  have h := (C4_url_fix_membership [] (mkInputRow "bourbon" "u1" "90" "reddit.com/r/x/1")).2
      (mkInputRow "bourbon" "u1" "90" "reddit.com/r/x/1") (strLit "reddit.com/r/x/1") rfl
  rw [h]
  decide
